import Mathlib

/-!
Shallow embedding of `src/get_data.py` (steam_stat_correlation).

Conventions of the embedding:
* Text is modelled as `List Char`.  Python's `\d` character class is
  modelled as the ASCII digits `[0-9]` (`Char.isDigit`); the inputs the
  program parses are ASCII HTML fragments.
* Python `float` arithmetic on the small magnitudes involved is modelled
  exactly over `ℚ`.
* The network layer (`aiohttp` fetches) is an external collaborator: each
  function takes the already-fetched, decoded responses (or an oracle
  producing them) as an argument, one response per scheduled request, in
  scheduling order (`asyncio.gather` preserves argument order).
* An uncaught Python exception that aborts the batch is modelled as the
  batch-level function returning `none`.
-/

/-- ASCII digit test, the model of the regex class `\d`. -/
def isDig (c : Char) : Bool := c.isDigit

/-- The character class `[kKMGT]` of `size_regex`. -/
def isUnitChar (c : Char) : Bool :=
  c = 'k' || c = 'K' || c = 'M' || c = 'G' || c = 'T'

/-- `dropPre p s`: `some r` when `s = p ++ r`, else `none` (matching a
literal token at the start of `s`). -/
def dropPre : List Char → List Char → Option (List Char)
  | [], s => some s
  | _ :: _, [] => none
  | p :: ps, c :: cs => if c = p then dropPre ps cs else none

/-- The alternation `(Storage:|Space:|Drive:)` of `size_regex`: if the text
starts with one of the three label tokens, drop it and return the rest.
The three labels are mutually exclusive at a given position, so the
ordered fallback coincides with `re`'s ordered alternation. -/
def stripLabel (s : List Char) : Option (List Char) :=
  match dropPre "Storage:".data s with
  | some r => some r
  | none =>
    match dropPre "Space:".data s with
    | some r => some r
    | none => dropPre "Drive:".data s

/-- The sub-pattern `[kKMGT]?B`, greedy: a unit letter must be followed by
`B`; otherwise the optional class is empty and the next character must be
`B` itself.  Returns the consumed characters. -/
def matchUnitB : List Char → Option (List Char)
  | [] => none
  | u :: rest =>
    if isUnitChar u then
      match rest with
      | [] => none
      | b :: _ => if b = 'B' then some [u, 'B'] else none
    else if u = 'B' then some ['B']
    else none

/-- The sub-pattern ` ?[kKMGT]?B` after the digits `ds`: the optional space
is consumed greedily (if the next character is a space, `[kKMGT]?B` must
match right after it — backtracking to the empty space cannot succeed
because a space is neither a unit letter nor `B`).  Returns group 2 of
`size_regex` (digits plus consumed suffix). -/
def matchSuffix (ds : List Char) : List Char → Option (List Char)
  | [] => none
  | c :: rest =>
    if c = ' ' then (matchUnitB rest).map (fun u => ds ++ ' ' :: u)
    else (matchUnitB (c :: rest)).map (fun u => ds ++ u)

/-- One anchored attempt of `(Storage:|Space:|Drive:)[^\d]*(\d+ ?[kKMGT]?B)`
at the start of `s`: the label, then `[^\d]*` greedily up to the first
digit (it can neither skip a digit nor give characters back), then the
maximal digit run `\d+`, then ` ?[kKMGT]?B`.  Returns group 2 on success. -/
def matchAt (s : List Char) : Option (List Char) :=
  match stripLabel s with
  | none => none
  | some rest =>
    match (rest.dropWhile (fun c => !isDig c)).takeWhile isDig with
    | [] => none
    | d :: ds =>
      matchSuffix (d :: ds) ((rest.dropWhile (fun c => !isDig c)).dropWhile isDig)

/-- `size_regex` (src/get_data.py lines 56-61):
`re.search(r'(Storage:|Space:|Drive:)[^\d]*(\d+ ?[kKMGT]?B)', text)`,
returning group 2 of the leftmost match (`match.groups()[-1]`), or `none`
when there is no match. -/
def size_regex : List Char → Option (List Char)
  | [] => none
  | c :: cs =>
    match matchAt (c :: cs) with
    | some g => some g
    | none => size_regex cs

/-- Python `str.split(' ')`: split on every single occurrence of the
space separator, keeping empty pieces (so `''.split(' ') == ['']` and
`'a  b'.split(' ') == ['a', '', 'b']`). -/
def splitSpace : List Char → List (List Char)
  | [] => [[]]
  | c :: cs =>
    if c = ' ' then [] :: splitSpace cs
    else
      match splitSpace cs with
      | [] => [[c]]
      | chunk :: rest => (c :: chunk) :: rest

/-- One step per digit run: the piece before the run, the run (the
captured group), then recurse after it.  Each step consumes at least the
run's first character, so fuel equal to the text's length never runs out;
at exhaustion the text is empty and `[s]` is the correct answer there
too. -/
def rsdFuel : ℕ → List Char → List (List Char)
  | 0, s => [s]
  | fuel + 1, s =>
    match (s.dropWhile (fun c => !isDig c)).takeWhile isDig with
    | [] => [s]
    | d :: ds =>
      s.takeWhile (fun c => !isDig c) :: (d :: ds) ::
        rsdFuel fuel ((s.dropWhile (fun c => !isDig c)).dropWhile isDig)

/-- Python `re.split(r'(\d+)', s)`: the pieces between maximal digit runs,
with each digit run (the captured group) inserted between them; a match at
the start or end of the string contributes an empty leading or trailing
piece (so `re.split(r'(\d+)', '10GB') == ['', '10', 'GB']`). -/
def reSplitDigits (s : List Char) : List (List Char) :=
  rsdFuel s.length s

/-- `float(d)` for a string of ASCII digits: the denoted natural number. -/
def parseMag (ds : List Char) : ℕ :=
  ds.foldl (fun acc c => 10 * acc + (c.toNat - 48)) 0

/-- Lines 147-164 of src/get_data.py applied to group 2 of the regex:
split the token (Python `size.split(' ')` when it contains a space,
`re.split(r'(\d+)', size)` otherwise), then dispatch on `size[1]` over the
fixed unit set, converting `float(size[0])` to gigabytes; any other
`size[1]` falls to the `else` branch, the sentinel `-1`. -/
def sizeOfGroup (g : List Char) : ℚ :=
  let size := if g.contains ' ' then splitSpace g else reSplitDigits g
  let s0 := size.getD 0 []
  let s1 := size.getD 1 []
  if s1 = "TB".data then (parseMag s0 : ℚ) * 1000
  else if s1 = "GB".data then (parseMag s0 : ℚ)
  else if s1 = "MB".data then (parseMag s0 : ℚ) / 1000
  else if s1 = "KB".data || s1 = "kB".data then (parseMag s0 : ℚ) / 1000000
  else if s1 = "B".data then (parseMag s0 : ℚ) / 1000000000
  else -1

/-- The per-item body of `get_game_sizes` on the markup-stripped
minimum-requirements text: sentinel `-1` when `size_regex` finds no match,
otherwise the normalized gigabyte value of the matched token. -/
def sizeFromText (text : List Char) : ℚ :=
  match size_regex text with
  | none => -1
  | some g => sizeOfGroup g

/-- One decoded detail response (the part line 132 of src/get_data.py
reads): either the nested `data.pc_requirements.minimum` field is present
— carrying its markup-stripped plain text — or some key on that path is
absent, in which case the subscription raises an uncaught `KeyError`. -/
inductive PcReq where
  | absent : PcReq
  | minimumText : List Char → PcReq
deriving DecidableEq

/-- `get_game_sizes` (src/get_data.py lines 112-168) on the fetched detail
responses, one per appid in order.  A response whose minimum-requirements
field is absent raises `KeyError` out of the loop, aborting the batch
(`none`); otherwise each item contributes its gigabyte estimate or the
sentinel `-1`. -/
def get_game_sizes (details : List PcReq) : Option (List ℚ) :=
  match details with
  | [] => some []
  | PcReq.absent :: _ => none
  | PcReq.minimumText t :: rest =>
    match get_game_sizes rest with
    | none => none
    | some sizes => some (sizeFromText t :: sizes)

/-- What one steam search page yields on parsing (lines 92-98 of
src/get_data.py): the first element of class `search_result_row`, carrying
the integer value of its `data-ds-appid` attribute and the text of the
page's `title` element.  A page with no such row makes the subscription of
`None` raise the `TypeError` the code catches; that case is `none` in the
search oracle below. -/
structure SearchHit where
  appid : ℤ
  title : String
deriving DecidableEq

/-- The first loop of `get_app_ids` (lines 77-85 of src/get_data.py) over
the names from absolute position `i` on: builds `app_ids` (the table's
identifier on a hit, `None` on a miss), `tasks` (the names whose search
fetches are scheduled, in scheduling order), and `not_found_ids` (the
original positions of those misses, in the same order). -/
def resolvePass (table : String → Option ℤ) :
    List String → ℕ → List (Option ℤ) × List String × List ℕ
  | [], _ => ([], [], [])
  | g :: gs, i =>
    let r := resolvePass table gs (i + 1)
    match table g with
    | some a => (some a :: r.1, r.2.1, r.2.2)
    | none => (none :: r.1, g :: r.2.1, i :: r.2.2)

/-- The second loop of `get_app_ids` (lines 90-103 of src/get_data.py):
responses are demultiplexed through `not_found_ids`, position by position.
A parsed search hit writes its appid into `app_ids` and its title over the
original entry of `game_names`; a failed search (caught `TypeError`)
writes the sentinel `-1` and leaves the name alone. -/
def fillPass : List (Option SearchHit) → List ℕ →
    List (Option ℤ) → List String → List (Option ℤ) × List String
  | r :: rs, j :: js, app_ids, names =>
    match r with
    | some hit => fillPass rs js (app_ids.set j (some hit.appid)) (names.set j hit.title)
    | none => fillPass rs js (app_ids.set j (some (-1))) names
  | _, _, app_ids, names => (app_ids, names)

/-- `get_app_ids` (src/get_data.py lines 63-109).  `table` is the loaded
`APP_NAME_TO_ID_DICT`; `search` is the search endpoint composed with the
HTML parsing of one response (`none` = no result row).  The two `assert`
statements at the end (`None not in app_ids`, equal lengths) abort the run
when violated, modelled as `none`; otherwise the appid list and the
updated name list are returned. -/
def get_app_ids (table : String → Option ℤ) (search : String → Option SearchHit)
    (game_names : List String) : Option (List ℤ × List String) :=
  let r := resolvePass table game_names 0
  let responses := r.2.1.map search
  let fr := fillPass responses r.2.2 r.1 game_names
  if fr.1.all Option.isSome && fr.1.length == fr.2.length then
    some (fr.1.map (fun o => o.getD 0), fr.2)
  else none

/-- The identifier `get_app_ids` is expected to deliver for one name:
the table's value on a hit, the parsed search hit's appid on a miss the
search resolves, the sentinel `-1` on a miss the search fails. -/
def expectedId (table : String → Option ℤ) (search : String → Option SearchHit)
    (g : String) : ℤ :=
  match table g with
  | some a => a
  | none =>
    match search g with
    | some hit => hit.appid
    | none => -1

/-- The name `get_app_ids` is expected to deliver for one input name:
unchanged on a table hit or a failed search, the search hit's displayed
title on a miss the search resolves. -/
def expectedName (table : String → Option ℤ) (search : String → Option SearchHit)
    (g : String) : String :=
  match table g with
  | some _ => g
  | none =>
    match search g with
    | some hit => hit.title
    | none => g

/-- `get_game_review_ratios` reads these two fields of one decoded reviews
response (lines 188-189 of src/get_data.py). -/
structure QuerySummary where
  total_reviews : ℕ
  total_positive : ℕ
deriving DecidableEq

/-- The per-item body of `get_game_review_ratios` (lines 191-196 of
src/get_data.py): `0.0` when the total review count is zero, the float
quotient `positive / total` otherwise, modelled exactly over `ℚ`. -/
def reviewRatio (q : QuerySummary) : ℚ :=
  if q.total_reviews = 0 then 0
  else (q.total_positive : ℚ) / (q.total_reviews : ℚ)

/-- `get_game_review_ratios` (src/get_data.py lines 171-198) on the
fetched review-summary responses, one per appid in order. -/
def get_game_review_ratios (summaries : List QuerySummary) : List ℚ :=
  summaries.map reviewRatio

theorem set_len_append {α : Type} (l₁ l₂ : List α) (x v : α) :
    (l₁ ++ x :: l₂).set l₁.length v = l₁ ++ v :: l₂ := by
  induction l₁ with
  | nil => rfl
  | cons a as ih => simp [ih]

theorem fillPass_resolvePass (table : String → Option ℤ)
    (search : String → Option SearchHit) (gs : List String) :
    ∀ (preIds : List (Option ℤ)) (preNames : List String),
      preIds.length = preNames.length →
      fillPass ((resolvePass table gs preNames.length).2.1.map search)
        ((resolvePass table gs preNames.length).2.2)
        (preIds ++ (resolvePass table gs preNames.length).1)
        (preNames ++ gs) =
      (preIds ++ gs.map (fun g => some (expectedId table search g)),
       preNames ++ gs.map (expectedName table search)) := by
  induction gs with
  | nil => intro preIds preNames h; simp [resolvePass, fillPass]
  | cons g gs ih =>
    intro preIds preNames h
    cases htg : table g with
    | some a =>
      have key := ih (preIds ++ [some a]) (preNames ++ [g]) (by simp [h])
      simp only [List.length_append, List.length_cons, List.length_nil,
        Nat.zero_add, Nat.add_zero, List.append_assoc, List.singleton_append] at key
      have e1 : expectedId table search g = a := by simp [expectedId, htg]
      have e2 : expectedName table search g = g := by simp [expectedName, htg]
      simp only [resolvePass, htg, List.map_cons, e1, e2]
      exact key
    | none =>
      cases hsg : search g with
      | some hit =>
        have key := ih (preIds ++ [some hit.appid]) (preNames ++ [hit.title]) (by simp [h])
        simp only [List.length_append, List.length_cons, List.length_nil,
          Nat.zero_add, Nat.add_zero, List.append_assoc, List.singleton_append] at key
        have e1 : expectedId table search g = hit.appid := by simp [expectedId, htg, hsg]
        have e2 : expectedName table search g = hit.title := by simp [expectedName, htg, hsg]
        simp only [resolvePass, htg, List.map_cons, hsg, fillPass, e1, e2]
        have hs1 : (preIds ++ none :: (resolvePass table gs (preNames.length + 1)).1).set
            preNames.length (some hit.appid) =
            preIds ++ some hit.appid :: (resolvePass table gs (preNames.length + 1)).1 := by
          rw [← h]; exact set_len_append _ _ _ _
        have hs2 : (preNames ++ g :: gs).set preNames.length hit.title =
            preNames ++ hit.title :: gs := set_len_append _ _ _ _
        rw [hs1, hs2]
        exact key
      | none =>
        have key := ih (preIds ++ [some (-1)]) (preNames ++ [g]) (by simp [h])
        simp only [List.length_append, List.length_cons, List.length_nil,
          Nat.zero_add, Nat.add_zero, List.append_assoc, List.singleton_append] at key
        have e1 : expectedId table search g = -1 := by simp [expectedId, htg, hsg]
        have e2 : expectedName table search g = g := by simp [expectedName, htg, hsg]
        simp only [resolvePass, htg, List.map_cons, hsg, fillPass, e1, e2]
        have hs1 : (preIds ++ none :: (resolvePass table gs (preNames.length + 1)).1).set
            preNames.length (some (-1)) =
            preIds ++ some (-1) :: (resolvePass table gs (preNames.length + 1)).1 := by
          rw [← h]; exact set_len_append _ _ _ _
        rw [hs1]
        exact key

/-- Functional characterization of the whole of `get_app_ids`: the asserts
pass and the result is the per-name expected identifier and name. -/
theorem get_app_ids_eq (table : String → Option ℤ) (search : String → Option SearchHit)
    (names : List String) :
    get_app_ids table search names =
      some (names.map (expectedId table search), names.map (expectedName table search)) := by
  have key := fillPass_resolvePass table search names [] [] rfl
  simp only [List.length_nil, List.nil_append] at key
  unfold get_app_ids
  simp only [key]
  simp [List.all_eq_true, List.map_map, Function.comp]

/-- Every position scheduled for a search by the first loop lies at or
beyond the loop's starting position. -/
theorem resolvePass_sched_ge (table : String → Option ℤ) (gs : List String) :
    ∀ (k j : ℕ), j ∈ (resolvePass table gs k).2.2 → k ≤ j := by
  induction gs with
  | nil => intro k j hj; simp [resolvePass] at hj
  | cons g gs ih =>
    intro k j hj
    cases htg : table g with
    | some a =>
      simp only [resolvePass, htg] at hj
      exact Nat.le_of_succ_le (ih (k + 1) j hj)
    | none =>
      simp only [resolvePass, htg, List.mem_cons] at hj
      cases hj with
      | inl he => omega
      | inr hm => exact Nat.le_of_succ_le (ih (k + 1) j hm)

/-- A position whose name the Lookup Table resolves is never scheduled for
a remote search by the first loop. -/
theorem resolvePass_hit_not_sched (table : String → Option ℤ) (gs : List String) :
    ∀ (k m : ℕ) (hm : m < gs.length),
      (table (gs.get ⟨m, hm⟩)).isSome →
      k + m ∉ (resolvePass table gs k).2.2 := by
  induction gs with
  | nil => intro k m hm; simp at hm
  | cons g gs ih =>
    intro k m hm hsome
    cases m with
    | zero =>
      cases htg : table g with
      | some a =>
        simp only [resolvePass, htg, Nat.add_zero]
        intro hmem
        have := resolvePass_sched_ge table gs (k + 1) k hmem
        omega
      | none => simp [List.get] at hsome; simp [htg] at hsome
    | succ m =>
      have hm2 : m < gs.length := by simp [List.length_cons] at hm; omega
      have hsome2 : (table (gs.get ⟨m, hm2⟩)).isSome := by
        simpa using hsome
      have key := ih (k + 1) m hm2 hsome2
      cases htg : table g with
      | some a =>
        simp only [resolvePass, htg]
        intro hmem
        have heq : k + (m + 1) = k + 1 + m := by omega
        rw [heq] at hmem
        exact key hmem
      | none =>
        simp only [resolvePass, htg, List.mem_cons]
        intro hmem
        cases hmem with
        | inl he => omega
        | inr hmm =>
          have : k + 1 + m = k + (m + 1) := by omega
          rw [this] at key
          exact key hmm

/-- C1: for every input name sequence (and any lookup table and search
oracle), `get_app_ids` passes its final run-level assertions — it returns
`some` result whose identifier sequence has the input's length — and every
position holds the Lookup-Table identifier of its name, a search-derived
identifier, or the sentinel `-1`. -/
theorem get_app_ids_aligned_total (table : String → Option ℤ)
    (search : String → Option SearchHit) (names : List String) :
    ∃ ids names2, get_app_ids table search names = some (ids, names2) ∧
      ids.length = names.length ∧
      ∀ (i : ℕ) (hi : i < ids.length) (hn : i < names.length),
        table names[i] = some ids[i] ∨
        (∃ hit, search names[i] = some hit ∧ ids[i] = hit.appid) ∨
        ids[i] = -1 := by
  refine ⟨_, _, get_app_ids_eq table search names, by simp, ?_⟩
  intro i hi hn
  simp only [List.getElem_map]
  cases htg : table names[i] with
  | some a => left; simp [expectedId, htg]
  | none =>
    cases hsg : search names[i] with
    | some hit =>
      right; left
      refine ⟨hit, rfl, by simp [expectedId, htg, hsg]⟩
    | none => right; right; simp [expectedId, htg, hsg]

/-- C6: a name the Lookup Table resolves gets exactly the table's
identifier at its position, and its position is never scheduled for a
remote search fetch (it is absent from `not_found_ids`, hence no task is
created for it). -/
theorem get_app_ids_hit_uses_table (table : String → Option ℤ)
    (search : String → Option SearchHit) (names : List String)
    (i : ℕ) (hn : i < names.length) (a : ℤ)
    (hhit : table names[i] = some a) :
    ∃ ids names2, get_app_ids table search names = some (ids, names2) ∧
      (∃ hi : i < ids.length, ids[i] = a) ∧
      i ∉ (resolvePass table names 0).2.2 := by
  refine ⟨_, _, get_app_ids_eq table search names, ⟨by simpa using hn, ?_⟩, ?_⟩
  · simp [expectedId, hhit]
  · have key := resolvePass_hit_not_sched table names 0 i hn (by simp [hhit])
    simpa using key

/-- C6 witness. -/
theorem get_app_ids_hit_uses_table_witness :
    ∃ ids names2,
      get_app_ids (fun n => if n = "Half-Life 2" then some 220 else none)
        (fun _ => none) ["Half-Life 2", "Portal"] = some (ids, names2) ∧
      (∃ hi : 0 < ids.length, ids[0] = 220) ∧
      0 ∉ (resolvePass (fun n => if n = "Half-Life 2" then some 220 else none)
        ["Half-Life 2", "Portal"] 0).2.2 :=
  get_app_ids_hit_uses_table _ _ _ 0 (by decide) 220 (by simp)

/-- C7: a name absent from the Lookup Table whose search page carries no
result row gets the sentinel `-1` at its position, while the batch still
completes with one identifier per input. -/
theorem get_app_ids_search_fail_sentinel (table : String → Option ℤ)
    (search : String → Option SearchHit) (names : List String)
    (i : ℕ) (hn : i < names.length)
    (hmiss : table names[i] = none)
    (hfail : search names[i] = none) :
    ∃ ids names2, get_app_ids table search names = some (ids, names2) ∧
      ids.length = names.length ∧ names2.length = names.length ∧
      ∃ hi : i < ids.length, ids[i] = -1 := by
  refine ⟨_, _, get_app_ids_eq table search names, by simp, by simp,
    by simpa using hn, ?_⟩
  simp [expectedId, hmiss, hfail]

/-- C7 witness. -/
theorem get_app_ids_search_fail_sentinel_witness :
    ∃ ids names2,
      get_app_ids (fun _ => none) (fun _ => none)
        ["UnknownGarbageTitle1234"] = some (ids, names2) ∧
      ids.length = 1 ∧ names2.length = 1 ∧
      ∃ hi : 0 < ids.length, ids[0] = -1 :=
  get_app_ids_search_fail_sentinel (fun _ => none) (fun _ => none)
    ["UnknownGarbageTitle1234"] 0 (by decide) rfl rfl

/-- C10: the returned name sequence (the in-place mutated input list) has
the input's length; a Lookup-Table hit leaves its name unchanged, a miss
whose search succeeded carries the search hit's displayed title, and a
miss whose search failed keeps its original name. -/
theorem get_app_ids_name_mutation (table : String → Option ℤ)
    (search : String → Option SearchHit) (names : List String) :
    ∃ ids names2, get_app_ids table search names = some (ids, names2) ∧
      names2.length = names.length ∧
      ∀ (i : ℕ) (hn : i < names.length) (hn2 : i < names2.length),
        ((table names[i]).isSome = true → names2[i] = names[i]) ∧
        (∀ hit, table names[i] = none → search names[i] = some hit →
          names2[i] = hit.title) ∧
        (table names[i] = none → search names[i] = none →
          names2[i] = names[i]) := by
  refine ⟨_, _, get_app_ids_eq table search names, by simp, ?_⟩
  intro i hn hn2
  refine ⟨?_, ?_, ?_⟩
  · intro hsome
    cases htg : table names[i] with
    | some a => simp [expectedName, htg]
    | none => rw [htg] at hsome; simp at hsome
  · intro hit htg hsg
    simp [expectedName, htg, hsg]
  · intro htg hsg
    simp [expectedName, htg, hsg]

theorem splitSpace_no_space (u : List Char) (hu : ' ' ∉ u) : splitSpace u = [u] := by
  induction u with
  | nil => rfl
  | cons c cs ih =>
    have hc : ¬c = ' ' := fun e => hu (e ▸ List.mem_cons_self c cs)
    have hcs : ' ' ∉ cs := fun m => hu (List.mem_cons_of_mem _ m)
    simp [splitSpace, hc, ih hcs]

theorem splitSpace_append (xs u : List Char) (hxs : ' ' ∉ xs) :
    splitSpace (xs ++ ' ' :: u) = xs :: splitSpace u := by
  induction xs with
  | nil => simp [splitSpace]
  | cons c cs ih =>
    have hc : ¬c = ' ' := fun e => hxs (e ▸ List.mem_cons_self c cs)
    have hcs : ' ' ∉ cs := fun m => hxs (List.mem_cons_of_mem _ m)
    simp only [List.cons_append, splitSpace, if_neg hc, List.append_eq, ih hcs]

/-- C8: a minimum-requirements text on which the size pattern finds no
match (no recognized storage label followed by a size token) yields the
sentinel `-1`. -/
theorem sizeFromText_no_match (text : List Char) (h : size_regex text = none) :
    sizeFromText text = -1 := by
  simp [sizeFromText, h]

/-- C8 witness: the spec's example text with no storage mention. -/
theorem sizeFromText_no_match_witness :
    size_regex "Requires a 64-bit processor".data = none ∧
    sizeFromText "Requires a 64-bit processor".data = -1 :=
  ⟨by decide, sizeFromText_no_match _ (by decide)⟩

/-- C3: every review ratio is exactly `0` when the total review count is
zero regardless of the positive count, and `positive / total` otherwise;
when the response is well-formed (positive count not exceeding total), the
value lies in `[0, 1]`. -/
theorem get_game_review_ratios_spec (qs : List QuerySummary) :
    (get_game_review_ratios qs).length = qs.length ∧
    ∀ (i : ℕ) (hi : i < qs.length) (hr : i < (get_game_review_ratios qs).length),
      (qs[i].total_reviews = 0 → (get_game_review_ratios qs)[i] = 0) ∧
      (qs[i].total_reviews ≠ 0 →
        (get_game_review_ratios qs)[i] =
          (qs[i].total_positive : ℚ) / (qs[i].total_reviews : ℚ)) ∧
      (qs[i].total_positive ≤ qs[i].total_reviews →
        0 ≤ (get_game_review_ratios qs)[i] ∧ (get_game_review_ratios qs)[i] ≤ 1) := by
  refine ⟨by simp [get_game_review_ratios], ?_⟩
  intro i hi hr
  have hget : (get_game_review_ratios qs)[i] = reviewRatio qs[i] := by
    simp [get_game_review_ratios]
  refine ⟨?_, ?_, ?_⟩
  · intro h0; rw [hget]; simp [reviewRatio, h0]
  · intro hne; rw [hget]; simp [reviewRatio, hne]
  · intro hle
    rw [hget]
    unfold reviewRatio
    by_cases h0 : qs[i].total_reviews = 0
    · simp [h0]
    · rw [if_neg h0]
      have hpos : (0 : ℚ) < (qs[i].total_reviews : ℚ) := by
        exact_mod_cast Nat.pos_of_ne_zero h0
      constructor
      · positivity
      · rw [div_le_one hpos]
        exact_mod_cast hle

/-- C3 witness: a zero-total and a `9/10` response. -/
theorem get_game_review_ratios_spec_witness :
    (get_game_review_ratios [⟨0, 7⟩, ⟨10, 9⟩]).get ⟨0, by decide⟩ = 0 ∧
    0 ≤ (get_game_review_ratios [⟨0, 7⟩, ⟨10, 9⟩]).get ⟨1, by decide⟩ ∧
    (get_game_review_ratios [⟨0, 7⟩, ⟨10, 9⟩]).get ⟨1, by decide⟩ ≤ 1 := by
  obtain ⟨hlen, hall⟩ := get_game_review_ratios_spec [⟨0, 7⟩, ⟨10, 9⟩]
  have h0 := hall 0 (by decide) (by decide)
  have h1 := hall 1 (by decide) (by decide)
  refine ⟨?_, ?_, ?_⟩
  · simpa using h0.1 (by decide)
  · simpa using (h1.2.2 (by decide)).1
  · simpa using (h1.2.2 (by decide)).2

/-- C5 (the code, not the claim): a detail response whose nested
minimum-requirements field is absent makes `get_game_sizes` abort the
whole batch (the uncaught `KeyError` of line 132), instead of recording
the sentinel like the no-pattern-match case does. -/
theorem get_game_sizes_missing_min_aborts :
    get_game_sizes [PcReq.absent, PcReq.minimumText "Storage: 10 GB".data] = none ∧
    get_game_sizes [PcReq.minimumText "Storage: 10 GB".data] = some [10] := by
  constructor
  · rfl
  · show some [((10 : ℕ) : ℚ)] = some [10]
    norm_num

/-- C4 (the code, not the claim): the spaced form of a matched token
normalizes correctly, but the run-together form of the same magnitude and
unit yields the sentinel `-1`: `re.split` on the capturing digit group
puts an empty string first, so `size[1]` is the digit string, never a
unit. -/
theorem get_game_sizes_split_no_space_bug :
    sizeFromText "Storage: 10 GB".data = 10 ∧
    sizeFromText "Storage: 10GB".data = -1 ∧
    reSplitDigits "10GB".data = ["".data, "10".data, "GB".data] := by
  refine ⟨?_, by decide, by decide⟩
  show ((10 : ℕ) : ℚ) = 10
  norm_num

/-- C2 counterexample: `10GB` is a matched size token with magnitude 10
and unit GB, yet it normalizes to the sentinel `-1`, not `10`. -/
theorem size_norm_run_together_counterexample :
    size_regex "Storage: 10GB".data = some "10GB".data ∧
    sizeOfGroup "10GB".data = -1 ∧
    sizeOfGroup "10GB".data ≠ 10 := by
  refine ⟨by decide, by decide, ?_⟩
  rw [show sizeOfGroup "10GB".data = -1 from by decide]
  norm_num

theorem dropPre_eq_append (p : List Char) :
    ∀ (s r : List Char), dropPre p s = some r → s = p ++ r := by
  induction p with
  | nil => intro s r h; simp [dropPre] at h; simp [h]
  | cons c cs ih =>
    intro s r h
    cases s with
    | nil => simp [dropPre] at h
    | cons a as =>
      by_cases hac : a = c
      · subst hac
        have h2 : dropPre cs as = some r := by simpa [dropPre] using h
        simp [ih as r h2]
      · simp [dropPre, hac] at h

theorem dropPre_append (p r : List Char) : dropPre p (p ++ r) = some r := by
  induction p with
  | nil => rfl
  | cons c cs ih => simp [dropPre, ih]

theorem stripLabel_eq_some (s r : List Char) (h : stripLabel s = some r) :
    ∃ lab, (lab = "Storage:".data ∨ lab = "Space:".data ∨ lab = "Drive:".data) ∧
      s = lab ++ r := by
  unfold stripLabel at h
  cases h1 : dropPre "Storage:".data s with
  | some r1 =>
    rw [h1] at h
    simp only [Option.some.injEq] at h
    subst h
    exact ⟨_, Or.inl rfl, dropPre_eq_append _ _ _ h1⟩
  | none =>
    rw [h1] at h
    cases h2 : dropPre "Space:".data s with
    | some r2 =>
      rw [h2] at h
      simp only [Option.some.injEq] at h
      subst h
      exact ⟨_, Or.inr (Or.inl rfl), dropPre_eq_append _ _ _ h2⟩
    | none =>
      rw [h2] at h
      exact ⟨_, Or.inr (Or.inr rfl), dropPre_eq_append _ _ _ h⟩

theorem stripLabel_label (lab r : List Char)
    (hl : lab = "Storage:".data ∨ lab = "Space:".data ∨ lab = "Drive:".data) :
    stripLabel (lab ++ r) = some r := by
  rcases hl with rfl | rfl | rfl <;> rfl

theorem matchUnitB_sound (t u : List Char) (h : matchUnitB t = some u) :
    (∃ post, t = u ++ post) ∧
    (u = "B".data ∨ u = "kB".data ∨ u = "KB".data ∨ u = "MB".data ∨
     u = "GB".data ∨ u = "TB".data) := by
  cases t with
  | nil => simp [matchUnitB] at h
  | cons c rest =>
    by_cases hc : isUnitChar c = true
    · cases rest with
      | nil => simp [matchUnitB, hc] at h
      | cons b rest2 =>
        by_cases hb : b = 'B'
        · subst hb
          have hu : u = [c, 'B'] := by
            have h2 := h
            simp [matchUnitB, hc] at h2
            exact h2.symm
          subst hu
          refine ⟨⟨rest2, rfl⟩, ?_⟩
          have hc2 : c = 'k' ∨ c = 'K' ∨ c = 'M' ∨ c = 'G' ∨ c = 'T' := by
            simpa [isUnitChar, or_assoc] using hc
          rcases hc2 with rfl | rfl | rfl | rfl | rfl <;> decide
        · simp [matchUnitB, hc, hb] at h
    · by_cases hcb : c = 'B'
      · subst hcb
        have hu : u = ['B'] := by
          have h2 := h
          simp [matchUnitB, hc] at h2
          exact h2.symm
        subst hu
        exact ⟨⟨rest, rfl⟩, by decide⟩
      · simp [matchUnitB, hc, hcb] at h

theorem matchUnitB_complete (u post : List Char)
    (hu : u = "B".data ∨ u = "kB".data ∨ u = "KB".data ∨ u = "MB".data ∨
      u = "GB".data ∨ u = "TB".data) :
    matchUnitB (u ++ post) = some u := by
  rcases hu with rfl | rfl | rfl | rfl | rfl | rfl <;> rfl

theorem matchSuffix_sound (ds t g : List Char) (h : matchSuffix ds t = some g) :
    ∃ sp u post, t = sp ++ u ++ post ∧ (sp = [] ∨ sp = [' ']) ∧
      (u = "B".data ∨ u = "kB".data ∨ u = "KB".data ∨ u = "MB".data ∨
       u = "GB".data ∨ u = "TB".data) ∧
      g = ds ++ sp ++ u := by
  cases t with
  | nil => simp [matchSuffix] at h
  | cons c rest =>
    by_cases hc : c = ' '
    · subst hc
      rw [show matchSuffix ds (' ' :: rest) =
        (matchUnitB rest).map (fun u => ds ++ ' ' :: u) from rfl] at h
      cases hm : matchUnitB rest with
      | none => rw [hm] at h; simp [Option.map] at h
      | some u =>
        rw [hm] at h
        simp only [Option.map, Option.some.injEq] at h
        obtain ⟨⟨post, hrest⟩, hu⟩ := matchUnitB_sound rest u hm
        exact ⟨[' '], u, post, by simp [hrest], Or.inr rfl, hu, by simp [← h]⟩
    · simp only [matchSuffix, if_neg hc] at h
      cases hm : matchUnitB (c :: rest) with
      | none => rw [hm] at h; simp [Option.map] at h
      | some u =>
        rw [hm] at h
        simp only [Option.map, Option.some.injEq] at h
        obtain ⟨⟨post, ht⟩, hu⟩ := matchUnitB_sound _ u hm
        exact ⟨[], u, post, by simp [ht], Or.inl rfl, hu, by simp [← h]⟩

theorem matchSuffix_complete (ds sp u post : List Char)
    (hsp : sp = [] ∨ sp = [' '])
    (hu : u = "B".data ∨ u = "kB".data ∨ u = "KB".data ∨ u = "MB".data ∨
      u = "GB".data ∨ u = "TB".data) :
    matchSuffix ds (sp ++ u ++ post) = some (ds ++ sp ++ u) := by
  rcases hsp with rfl | rfl
  · simp only [List.nil_append, List.append_nil]
    rcases hu with rfl | rfl | rfl | rfl | rfl | rfl <;> rfl
  · rw [List.append_assoc, List.singleton_append]
    rw [show matchSuffix ds (' ' :: (u ++ post)) =
      (matchUnitB (u ++ post)).map (fun x => ds ++ ' ' :: x) from rfl]
    rw [matchUnitB_complete u post hu]
    simp

theorem matchAt_sound (s g : List Char) (h : matchAt s = some g) :
    ∃ lab gap ds sp u post,
      s = lab ++ gap ++ ds ++ sp ++ u ++ post ∧
      (lab = "Storage:".data ∨ lab = "Space:".data ∨ lab = "Drive:".data) ∧
      (∀ c ∈ gap, isDig c = false) ∧
      ds ≠ [] ∧ (∀ c ∈ ds, isDig c = true) ∧
      (sp = [] ∨ sp = [' ']) ∧
      (u = "B".data ∨ u = "kB".data ∨ u = "KB".data ∨ u = "MB".data ∨
       u = "GB".data ∨ u = "TB".data) := by
  unfold matchAt at h
  cases hsl : stripLabel s with
  | none => rw [hsl] at h; simp at h
  | some rest =>
    rw [hsl] at h
    replace h : (match (rest.dropWhile (fun c => !isDig c)).takeWhile isDig with
      | [] => (none : Option (List Char))
      | d :: ds =>
        matchSuffix (d :: ds)
          ((rest.dropWhile (fun c => !isDig c)).dropWhile isDig)) = some g := h
    obtain ⟨lab, hlab, hs⟩ := stripLabel_eq_some s rest hsl
    cases htw : (rest.dropWhile (fun c => !isDig c)).takeWhile isDig with
    | nil => rw [htw] at h; simp at h
    | cons d ds0 =>
      rw [htw] at h
      replace h : matchSuffix (d :: ds0)
          ((rest.dropWhile (fun c => !isDig c)).dropWhile isDig) = some g := h
      obtain ⟨sp, u, post, hteq, hsp, hu, hg⟩ := matchSuffix_sound _ _ _ h
      have h1 : rest.dropWhile (fun c => !isDig c) =
          (d :: ds0) ++ ((rest.dropWhile (fun c => !isDig c)).dropWhile isDig) := by
        conv_lhs => rw [← List.takeWhile_append_dropWhile isDig
          (rest.dropWhile (fun c => !isDig c))]
        rw [htw]
      have hrest2 : rest = rest.takeWhile (fun c => !isDig c) ++
          ((d :: ds0) ++ (sp ++ u ++ post)) := by
        conv_lhs => rw [← List.takeWhile_append_dropWhile (fun c => !isDig c) rest]
        rw [h1, hteq]
      refine ⟨lab, rest.takeWhile (fun c => !isDig c), d :: ds0, sp, u, post,
        ?_, hlab, ?_, by simp, ?_, hsp, hu⟩
      · rw [hs]
        simp only [List.append_assoc, List.cons_append]
        congr 1
        simp only [List.append_assoc, List.cons_append] at hrest2
        exact hrest2
      · intro c hc
        have hp := List.mem_takeWhile_imp hc
        simpa using hp
      · intro c hc
        have hc2 : c ∈ (rest.dropWhile (fun c => !isDig c)).takeWhile isDig := by
          rw [htw]; exact hc
        exact List.mem_takeWhile_imp hc2

theorem matchAt_complete (lab gap ds sp u post : List Char)
    (hlab : lab = "Storage:".data ∨ lab = "Space:".data ∨ lab = "Drive:".data)
    (hgap : ∀ c ∈ gap, isDig c = false)
    (hds : ds ≠ []) (hdig : ∀ c ∈ ds, isDig c = true)
    (hsp : sp = [] ∨ sp = [' '])
    (hu : u = "B".data ∨ u = "kB".data ∨ u = "KB".data ∨ u = "MB".data ∨
      u = "GB".data ∨ u = "TB".data) :
    (matchAt (lab ++ gap ++ ds ++ sp ++ u ++ post)).isSome = true := by
  obtain ⟨d0, ds', rfl⟩ : ∃ d0 ds', ds = d0 :: ds' := by
    cases ds with
    | nil => exact absurd rfl hds
    | cons a b => exact ⟨a, b, rfl⟩
  have hd0 : isDig d0 = true := hdig d0 (by simp)
  obtain ⟨c0, t0, hct, hc0⟩ :
      ∃ c0 t0, sp ++ u ++ post = c0 :: t0 ∧ isDig c0 = false := by
    rcases hsp with rfl | rfl
    · rcases hu with rfl | rfl | rfl | rfl | rfl | rfl <;>
        exact ⟨_, _, rfl, by decide⟩
    · exact ⟨' ', u ++ post, by simp, by decide⟩
  have hassoc : lab ++ gap ++ (d0 :: ds') ++ sp ++ u ++ post =
      lab ++ (gap ++ ((d0 :: ds') ++ (sp ++ u ++ post))) := by
    simp [List.append_assoc]
  rw [hassoc]
  have h1 : stripLabel (lab ++ (gap ++ ((d0 :: ds') ++ (sp ++ u ++ post)))) =
      some (gap ++ ((d0 :: ds') ++ (sp ++ u ++ post))) := stripLabel_label _ _ hlab
  have h2 : (gap ++ ((d0 :: ds') ++ (sp ++ u ++ post))).dropWhile
        (fun c => !isDig c) = (d0 :: ds') ++ (sp ++ u ++ post) := by
    rw [List.dropWhile_append_of_pos (by intro a ha; simpa using hgap a ha)]
    rw [List.cons_append]
    exact List.dropWhile_cons_of_neg (by simp [hd0])
  have h3 : ((d0 :: ds') ++ (sp ++ u ++ post)).takeWhile isDig = d0 :: ds' := by
    rw [List.takeWhile_append_of_pos hdig, hct]
    rw [List.takeWhile_cons_of_neg (by simp [hc0])]
    simp
  have h4 : ((d0 :: ds') ++ (sp ++ u ++ post)).dropWhile isDig =
      sp ++ u ++ post := by
    rw [List.dropWhile_append_of_pos hdig, hct]
    exact List.dropWhile_cons_of_neg (by simp [hc0])
  unfold matchAt
  rw [h1]
  replace hgoal : (match ((gap ++ ((d0 :: ds') ++ (sp ++ u ++ post))).dropWhile
        (fun c => !isDig c)).takeWhile isDig with
    | [] => (none : Option (List Char))
    | d :: ds =>
      matchSuffix (d :: ds)
        (((gap ++ ((d0 :: ds') ++ (sp ++ u ++ post))).dropWhile
          (fun c => !isDig c)).dropWhile isDig)).isSome = true := by
    rw [h2, h3, h4]
    rw [show (match d0 :: ds' with
      | [] => (none : Option (List Char))
      | d :: ds => matchSuffix (d :: ds) (sp ++ u ++ post)) =
        matchSuffix (d0 :: ds') (sp ++ u ++ post) from rfl]
    rw [matchSuffix_complete (d0 :: ds') sp u post hsp hu]
    rfl
  exact hgoal

theorem size_regex_isSome_of_matchAt (pre rest : List Char)
    (h : (matchAt rest).isSome = true) :
    (size_regex (pre ++ rest)).isSome = true := by
  induction pre with
  | nil =>
    cases rest with
    | nil => simp [matchAt, stripLabel, dropPre] at h
    | cons c cs =>
      rw [List.nil_append]
      simp only [size_regex]
      cases hm : matchAt (c :: cs) with
      | some g => simp
      | none => rw [hm] at h; simp at h
  | cons p ps ih =>
    rw [List.cons_append]
    simp only [size_regex]
    cases hm : matchAt (p :: (ps ++ rest)) with
    | some g => simp
    | none => simpa using ih

theorem size_regex_sound (s : List Char) (h : (size_regex s).isSome = true) :
    ∃ pre rest, s = pre ++ rest ∧ (matchAt rest).isSome = true := by
  induction s with
  | nil => simp [size_regex] at h
  | cons c cs ih =>
    cases hm : matchAt (c :: cs) with
    | some g => exact ⟨[], c :: cs, rfl, by simp [hm]⟩
    | none =>
      have h2 : (size_regex cs).isSome = true := by
        have h3 := h
        simp only [size_regex, hm] at h3
        exact h3
      obtain ⟨pre, rest, heq, hsome⟩ := ih h2
      exact ⟨c :: pre, rest, by simp [heq], hsome⟩

/-- C9 amended: `size_regex` matches a text exactly when it contains one of
the three label tokens followed, after a run of non-digit characters, by a
numeric magnitude carrying a unit suffix from the set B, kB, KB, MB, GB,
TB (magnitude and suffix optionally separated by one space).  The final
`B` is required — only the multiplier letter is optional — so a label
followed by a bare magnitude with no unit suffix is not matched. -/
theorem size_regex_matches_iff (s : List Char) :
    (size_regex s).isSome = true ↔
      ∃ pre lab gap ds sp u post,
        s = pre ++ lab ++ gap ++ ds ++ sp ++ u ++ post ∧
        (lab = "Storage:".data ∨ lab = "Space:".data ∨ lab = "Drive:".data) ∧
        (∀ c ∈ gap, isDig c = false) ∧
        ds ≠ [] ∧ (∀ c ∈ ds, isDig c = true) ∧
        (sp = [] ∨ sp = [' ']) ∧
        (u = "B".data ∨ u = "kB".data ∨ u = "KB".data ∨ u = "MB".data ∨
         u = "GB".data ∨ u = "TB".data) := by
  constructor
  · intro h
    obtain ⟨pre, rest, hs, hm⟩ := size_regex_sound s h
    cases hmm : matchAt rest with
    | none => rw [hmm] at hm; simp at hm
    | some g =>
      obtain ⟨lab, gap, ds, sp, u, post, hre, hlab, hgap, hds, hdig, hsp, hu⟩ :=
        matchAt_sound rest g hmm
      refine ⟨pre, lab, gap, ds, sp, u, post, ?_, hlab, hgap, hds, hdig, hsp, hu⟩
      rw [hs, hre]
      simp [List.append_assoc]
  · rintro ⟨pre, lab, gap, ds, sp, u, post, rfl, hlab, hgap, hds, hdig, hsp, hu⟩
    have hkey := matchAt_complete lab gap ds sp u post hlab hgap hds hdig hsp hu
    have hsr := size_regex_isSome_of_matchAt pre
      (lab ++ gap ++ ds ++ sp ++ u ++ post) hkey
    have hassoc : pre ++ lab ++ gap ++ ds ++ sp ++ u ++ post =
        pre ++ (lab ++ gap ++ ds ++ sp ++ u ++ post) := by
      simp [List.append_assoc]
    rw [hassoc]
    exact hsr

/-- C9 counterexample: a label followed by a bare numeric magnitude with
no unit suffix is not matched, contrary to the claim; the item gets the
sentinel. -/
theorem size_regex_bare_magnitude_counterexample :
    size_regex "Storage: 10".data = none ∧
    sizeFromText "Storage: 10".data = -1 :=
  ⟨by decide, by decide⟩

/-- C1 witness: the spec's two-name scenario, one table hit and one
unresolvable name. -/
theorem get_app_ids_aligned_total_witness :
    ∃ ids names2,
      get_app_ids (fun n => if n = "Half-Life 2" then some (220 : ℤ) else none)
        (fun _ => none) ["Half-Life 2", "UnknownGarbageTitle1234"] =
          some (ids, names2) ∧
      ids.length = (["Half-Life 2", "UnknownGarbageTitle1234"] : List String).length ∧
      ∀ (i : ℕ) (hi : i < ids.length)
        (hn : i < (["Half-Life 2", "UnknownGarbageTitle1234"] : List String).length),
        (fun n => if n = "Half-Life 2" then some (220 : ℤ) else none)
            (["Half-Life 2", "UnknownGarbageTitle1234"] : List String)[i] =
          some ids[i] ∨
        (∃ hit, (fun _ => (none : Option SearchHit))
            (["Half-Life 2", "UnknownGarbageTitle1234"] : List String)[i] =
          some hit ∧ ids[i] = hit.appid) ∨
        ids[i] = -1 :=
  get_app_ids_aligned_total _ _ _

/-- C9 witness: a concrete decomposition driven through the amended
characterization. -/
theorem size_regex_matches_iff_witness :
    (size_regex "Drive: 5 kB".data).isSome = true :=
  (size_regex_matches_iff "Drive: 5 kB".data).mpr
    ⟨[], "Drive:".data, [' '], ['5'], [' '], "kB".data, [],
      by decide, by decide, by decide, by decide, by decide, by decide, by decide⟩

/-- C10 witness: one table hit, one miss resolved by search with a
rewritten title, one miss the search fails. -/
theorem get_app_ids_name_mutation_witness :
    ∃ ids names2,
      get_app_ids (fun n => if n = "Half-Life 2" then some (220 : ℤ) else none)
        (fun n => if n = "portal" then some (⟨400, "Portal"⟩ : SearchHit) else none)
        ["Half-Life 2", "portal", "zzzz"] = some (ids, names2) ∧
      names2.length = (["Half-Life 2", "portal", "zzzz"] : List String).length ∧
      ∀ (i : ℕ) (hn : i < (["Half-Life 2", "portal", "zzzz"] : List String).length)
        (hn2 : i < names2.length),
        (((fun n => if n = "Half-Life 2" then some (220 : ℤ) else none)
            (["Half-Life 2", "portal", "zzzz"] : List String)[i]).isSome = true →
          names2[i] = (["Half-Life 2", "portal", "zzzz"] : List String)[i]) ∧
        (∀ hit, (fun n => if n = "Half-Life 2" then some (220 : ℤ) else none)
            (["Half-Life 2", "portal", "zzzz"] : List String)[i] = none →
          (fun n => if n = "portal" then some (⟨400, "Portal"⟩ : SearchHit) else none)
            (["Half-Life 2", "portal", "zzzz"] : List String)[i] = some hit →
          names2[i] = hit.title) ∧
        ((fun n => if n = "Half-Life 2" then some (220 : ℤ) else none)
            (["Half-Life 2", "portal", "zzzz"] : List String)[i] = none →
          (fun n => if n = "portal" then some (⟨400, "Portal"⟩ : SearchHit) else none)
            (["Half-Life 2", "portal", "zzzz"] : List String)[i] = none →
          names2[i] = (["Half-Life 2", "portal", "zzzz"] : List String)[i]) :=
  get_app_ids_name_mutation _ _ _

/-- A text containing no digit has no match of the captured digit group:
`re.split` returns it whole, whatever the fuel. -/
theorem rsdFuel_no_digits (fuel : ℕ) (u : List Char)
    (hu : ∀ c ∈ u, isDig c = false) : rsdFuel fuel u = [u] := by
  cases fuel with
  | zero => rfl
  | succ n =>
    have hdrop : u.dropWhile (fun c => !isDig c) = [] := by
      rw [List.dropWhile_eq_nil_iff]
      intro c hc
      simp [hu c hc]
    simp [rsdFuel, hdrop]

/-- `re.split(r'(\d+)', ds ++ u)` for a nonempty digit run `ds` followed
by digit-free text `u`: an empty leading piece, the digit run, then `u` —
the shape behind the run-together indexing slip. -/
theorem reSplitDigits_digits_first (ds u : List Char) (hds : ds ≠ [])
    (hdig : ∀ c ∈ ds, isDig c = true) (hu : ∀ c ∈ u, isDig c = false) :
    reSplitDigits (ds ++ u) = [[], ds, u] := by
  obtain ⟨d, ds', rfl⟩ : ∃ d ds', ds = d :: ds' := by
    cases ds with
    | nil => exact absurd rfl hds
    | cons a b => exact ⟨a, b, rfl⟩
  have hd : isDig d = true := hdig d (by simp)
  have hdrop1 : (d :: ds' ++ u).dropWhile (fun c => !isDig c) = d :: ds' ++ u := by
    rw [List.cons_append]
    exact List.dropWhile_cons_of_neg (by simp [hd])
  have htake0 : (d :: ds' ++ u).takeWhile (fun c => !isDig c) = [] := by
    rw [List.cons_append]
    exact List.takeWhile_cons_of_neg (by simp [hd])
  have hutake : u.takeWhile isDig = [] := by
    cases u with
    | nil => rfl
    | cons x xs => exact List.takeWhile_cons_of_neg (by simp [hu x (by simp)])
  have htake1 : (d :: ds' ++ u).takeWhile isDig = d :: ds' := by
    rw [List.takeWhile_append_of_pos hdig, hutake, List.append_nil]
  have hudrop : u.dropWhile isDig = u := by
    cases u with
    | nil => rfl
    | cons x xs => exact List.dropWhile_cons_of_neg (by simp [hu x (by simp)])
  have hdrop2 : (d :: ds' ++ u).dropWhile isDig = u := by
    rw [List.dropWhile_append_of_pos hdig, hudrop]
  show rsdFuel ((d :: ds' ++ u).length) (d :: ds' ++ u) = [[], d :: ds', u]
  rw [show (d :: ds' ++ u).length = (ds' ++ u).length + 1 by simp]
  rw [show rsdFuel ((ds' ++ u).length + 1) (d :: ds' ++ u) =
    (match ((d :: ds' ++ u).dropWhile (fun c => !isDig c)).takeWhile isDig with
     | [] => [d :: ds' ++ u]
     | e :: es =>
       (d :: ds' ++ u).takeWhile (fun c => !isDig c) :: (e :: es) ::
         rsdFuel ((ds' ++ u).length)
           (((d :: ds' ++ u).dropWhile (fun c => !isDig c)).dropWhile isDig))
    from rfl]
  rw [hdrop1, htake1, htake0, hdrop2]
  rw [rsdFuel_no_digits _ u hu]

/-- C2 amended: for a matched size token with magnitude `ds` and unit `u`
(digit run plus non-digit unit text), the space-separated form normalizes
exactly as TB to `M * 1000`, GB to `M`, MB to `M / 1000`, KB or kB to
`M / 1000000`, B to `M / 1000000000`, any other unit to the sentinel `-1`;
and the run-together form always yields the sentinel `-1`, whatever the
unit. -/
theorem sizeOfGroup_token_norm (ds u : List Char)
    (hds : ds ≠ []) (hdig : ∀ c ∈ ds, isDig c = true) (hsp : ' ' ∉ u) :
    (sizeOfGroup (ds ++ ' ' :: u) =
      (if u = "TB".data then (parseMag ds : ℚ) * 1000
       else if u = "GB".data then (parseMag ds : ℚ)
       else if u = "MB".data then (parseMag ds : ℚ) / 1000
       else if u = "KB".data || u = "kB".data then (parseMag ds : ℚ) / 1000000
       else if u = "B".data then (parseMag ds : ℚ) / 1000000000
       else -1)) ∧
    ((∀ c ∈ u, isDig c = false) → sizeOfGroup (ds ++ u) = -1) := by
  constructor
  · have hdsp : ' ' ∉ ds := by
      intro m
      have hx := hdig ' ' m
      simp [isDig] at hx
    have hcontains : (ds ++ ' ' :: u).contains ' ' = true := by
      simp [List.contains]
    have hsplit : splitSpace (ds ++ ' ' :: u) = ds :: splitSpace u :=
      splitSpace_append ds u hdsp
    have husplit : splitSpace u = [u] := splitSpace_no_space u hsp
    simp only [sizeOfGroup, hcontains, if_true, hsplit, husplit, List.getD]
    rfl
  · intro hund
    have hnosp : ' ' ∉ ds ++ u := by
      intro hmem
      rcases List.mem_append.mp hmem with hin | hin
      · have hx := hdig ' ' hin
        simp [isDig] at hx
      · exact hsp hin
    have hcont : (ds ++ u).contains ' ' = false := by
      simpa [List.contains] using hnosp
    have hsplit := reSplitDigits_digits_first ds u hds hdig hund
    have hdne : ∀ (v : List Char) (c0 : Char), c0 ∈ v → isDig c0 = false →
        ¬ ds = v := by
      intro v c0 hc0v hc0 hcontra
      rw [hcontra] at hdig
      have hx := hdig c0 hc0v
      rw [hc0] at hx
      exact Bool.false_ne_true hx
    simp only [sizeOfGroup, hcont, Bool.false_eq_true, if_false, hsplit, List.getD,
      List.get?_cons_succ, List.get?_cons_zero, Option.getD_some]
    rw [if_neg (hdne ['T', 'B'] 'T' (by decide) (by decide))]
    rw [if_neg (hdne ['G', 'B'] 'G' (by decide) (by decide))]
    rw [if_neg (hdne ['M', 'B'] 'M' (by decide) (by decide))]
    rw [if_neg (by
      simp only [Bool.or_eq_true, decide_eq_true_eq]
      rintro (hK | hk)
      · exact hdne ['K', 'B'] 'K' (by decide) (by decide) hK
      · exact hdne ['k', 'B'] 'k' (by decide) (by decide) hk)]
    rw [if_neg (hdne ['B'] 'B' (by decide) (by decide))]

/-- C2 amended witness: the spec's `500 MB` example, spaced and
run-together. -/
theorem sizeOfGroup_token_norm_witness :
    sizeOfGroup "500 MB".data = 500 / 1000 ∧ sizeOfGroup "500MB".data = -1 := by
  have h := sizeOfGroup_token_norm ['5', '0', '0'] ['M', 'B']
    (by decide) (by decide) (by decide)
  constructor
  · have h1 := h.1
    rw [if_neg (by decide), if_neg (by decide), if_pos (by decide)] at h1
    rw [show ("500 MB".data : List Char) = ['5', '0', '0'] ++ ' ' :: ['M', 'B'] from rfl,
      h1, show parseMag ['5', '0', '0'] = 500 from rfl]
    norm_num
  · have h2 := h.2 (by decide)
    rw [show ("500MB".data : List Char) = ['5', '0', '0'] ++ ['M', 'B'] from rfl, h2]
